import Mathlib

/-!
A shallow embedding of the rbxver package (`version.go`): a parser and
formatter for four-component Roblox version strings.

Modelling conventions:
* Go's `int` is modelled as `Int`; the only place the bounded width matters
  is `strconv.ParseInt(s, 10, strconv.IntSize)`, which is modelled by an
  explicit range check against `intMax = 2^63 - 1` (64-bit platform).
* The input byte slice is modelled as `List Char`; every byte the grammar
  itself inspects is ASCII, where bytes and characters coincide.
  `unicode.IsSpace` is modelled by `goIsSpace`, covering the White_Space
  code points of the `unicode` package tables.
* `Version.Format` and `Parse` panic in Go when the `Format` tag (an `int`)
  is not one of the six named constants; the panic is modelled by an
  `Option` result, `none` standing for the panic.
* Errors: `GoErr.synErr` models the package-level `ErrSyntax`, and
  `GoErr.eofErr` models `io.ErrUnexpectedEOF`.
-/

namespace Rbxver

/-- The two error values the decoder can produce: `synErr` models `ErrSyntax`
("invalid syntax"), `eofErr` models `io.ErrUnexpectedEOF`. -/
inductive GoErr where
  | synErr
  | eofErr
deriving DecidableEq

/-- The Go type `Format int`, which selects parsing/formatting convention. -/
abbrev Fmt := Int

/-- `Any`: parse by guessing separator; format as `0.0.0.0`. -/
def Any : Fmt := 0

/-- `Dot`: parse with dot as separator; format as `0.0.0.0`. -/
def Dot : Fmt := 1

/-- `Comma`: parse with comma as separator. -/
def Comma : Fmt := 2

/-- `AnySpace`: guess separator, allowing whitespace between components. -/
def AnySpace : Fmt := 3

/-- `DotSpace`: dot separator, allowing whitespace between components. -/
def DotSpace : Fmt := 4

/-- `CommaSpace`: comma separator, allowing whitespace between components. -/
def CommaSpace : Fmt := 5

/-- A format tag is one of the six named constants of the package. -/
def validFmt (f : Fmt) : Prop :=
  f = Any ∨ f = Dot ∨ f = Comma ∨ f = AnySpace ∨ f = DotSpace ∨ f = CommaSpace

instance (f : Fmt) : Decidable (validFmt f) := by
  unfold validFmt; infer_instance

/-- The `Version` struct: four `int` components. -/
structure Version where
  Major : Int
  Minor : Int
  Patch : Int
  Maint : Int
deriving DecidableEq

/-- `strconv.IntSize` is 64 on the target platform, so
`strconv.ParseInt(s, 10, strconv.IntSize)` accepts values up to `2^63 - 1`. -/
def intMax : Nat := 2 ^ 63 - 1

/-- The digit test `'0' <= b[i] && b[i] <= '9'` of `parseInt`,
stated on the byte (code point) value. -/
def isDigitCh (c : Char) : Bool := 48 ≤ c.toNat && c.toNat ≤ 57

/-- `unicode.IsSpace`: the White_Space code points of the `unicode` package
(`\t`, `\n`, `\v`, `\f`, `\r`, space, NEL, NBSP and the higher White_Space
code points). -/
def goIsSpace (c : Char) : Bool :=
  c.toNat = 9 || c.toNat = 10 || c.toNat = 11 || c.toNat = 12 || c.toNat = 13 ||
  c.toNat = 32 || c.toNat = 0x85 || c.toNat = 0xA0 || c.toNat = 0x1680 ||
  (0x2000 ≤ c.toNat && c.toNat ≤ 0x200A) ||
  c.toNat = 0x2028 || c.toNat = 0x2029 || c.toNat = 0x202F || c.toNat = 0x205F ||
  c.toNat = 0x3000

/-- `bytes.TrimLeftFunc(b, unicode.IsSpace)` applied when `ws` is set,
exactly as the `if ws { b = bytes.TrimLeftFunc(b, unicode.IsSpace) }` lines. -/
def trimWS (ws : Bool) (b : List Char) : List Char :=
  if ws then b.dropWhile goIsSpace else b

/-- The numeric value `strconv.ParseInt` assigns to a run of decimal digits. -/
def digitsVal (ds : List Char) : Nat :=
  ds.foldl (fun a c => 10 * a + (c.toNat - 48)) 0

/-- `parseInt`: scan a maximal run of ASCII digits from the front of `b` and
convert it with `strconv.ParseInt(·, 10, strconv.IntSize)`.  Returns `none`
(Go: `false`, leaving `comp` and `b` untouched) when the run is empty or the
value overflows; the `n < 0` guard of the Go code cannot fire on an
all-digits string and is subsumed by the range check. -/
def parseInt (b : List Char) : Option (Int × List Char) :=
  if b.takeWhile isDigitCh = [] then none
  else if digitsVal (b.takeWhile isDigitCh) ≤ intMax then
    some (((digitsVal (b.takeWhile isDigitCh) : Nat) : Int),
      b.drop (b.takeWhile isDigitCh).length)
  else none

/-- `parseSep`: expects `sep` at the start of `b`.  When `sep` is `none` the
separator is guessed from the first byte (`.` or `,`) and returned for use at
subsequent boundaries.  The returned list is the state of the Go `*b` pointer
after the call — note that the leading-whitespace trim mutates `*b` even on
the failure paths. -/
def parseSep (sep : Option (List Char)) (ws : Bool) (b : List Char) :
    Option (List Char) × List Char × Option GoErr :=
  match trimWS ws b with
  | [] => (sep, [], some GoErr.eofErr)
  | c :: rest =>
    match sep with
    | none =>
      if c = '.' ∨ c = ',' then (some [c], trimWS ws rest, none)
      else (none, c :: rest, some GoErr.synErr)
    | some s =>
      if (c :: rest).length < s.length then (some s, c :: rest, some GoErr.eofErr)
      else if (c :: rest).take s.length = s then
        (some s, trimWS ws ((c :: rest).drop s.length), none)
      else (some s, c :: rest, some GoErr.synErr)

/-- The body of `Parse` after the `switch` has chosen the initial separator
`sep0` and the whitespace flag `ws`.  The consumed count is `l - len(b)`
(a Go `int`, hence `Int` here) computed with the current value of `b` at
every return, exactly as in the source. -/
def parseCore (sep0 : Option (List Char)) (ws : Bool) (b0 : List Char) :
    Version × Int × Option GoErr :=
  if trimWS ws b0 = [] then
    (⟨0, 0, 0, 0⟩, (b0.length : Int) - ((trimWS ws b0).length : Int), some GoErr.eofErr)
  else
    match parseInt (trimWS ws b0) with
    | none => (⟨0, 0, 0, 0⟩, (b0.length : Int) - ((trimWS ws b0).length : Int), some GoErr.synErr)
    | some (x1, b1) =>
      match parseSep sep0 ws b1 with
      | (_, b2, some e) => (⟨x1, 0, 0, 0⟩, (b0.length : Int) - (b2.length : Int), some e)
      | (s1, b2, none) =>
        match parseInt b2 with
        | none => (⟨x1, 0, 0, 0⟩, (b0.length : Int) - (b2.length : Int), some GoErr.synErr)
        | some (x2, b3) =>
          match parseSep s1 ws b3 with
          | (_, b4, some e) => (⟨x1, x2, 0, 0⟩, (b0.length : Int) - (b4.length : Int), some e)
          | (s2, b4, none) =>
            match parseInt b4 with
            | none => (⟨x1, x2, 0, 0⟩, (b0.length : Int) - (b4.length : Int), some GoErr.synErr)
            | some (x3, b5) =>
              match parseSep s2 ws b5 with
              | (_, b6, some e) => (⟨x1, x2, x3, 0⟩, (b0.length : Int) - (b6.length : Int), some e)
              | (_, b6, none) =>
                match parseInt b6 with
                | none => (⟨x1, x2, x3, 0⟩, (b0.length : Int) - (b6.length : Int), some GoErr.synErr)
                | some (x4, b7) =>
                  (⟨x1, x2, x3, x4⟩, (b0.length : Int) - ((trimWS ws b7).length : Int), none)

/-- The `switch f` at the top of `Parse`: initial separator and whitespace
flag for each named tag; `none` models the `panic("invalid format")`. -/
def parseCfg (f : Fmt) : Option (Option (List Char) × Bool) :=
  if f = Any then some (none, false)
  else if f = Dot then some (some ['.'], false)
  else if f = Comma then some (some [','], false)
  else if f = AnySpace then some (none, true)
  else if f = DotSpace then some (some ['.'], true)
  else if f = CommaSpace then some (some [','], true)
  else none

/-- `Parse(b, f)`: the decoder.  Produces `(Version, consumed, error)`;
the outer `Option` is `none` exactly on the panic for an invalid tag. -/
def Parse (b : List Char) (f : Fmt) : Option (Version × Int × Option GoErr) :=
  match parseCfg f with
  | none => none
  | some (sep0, ws) => some (parseCore sep0 ws b)

/-- `ParseString(s, f)`: returns the decoded version when `Parse` reports no
error and consumed the whole input, and the zero `Version` otherwise. -/
def ParseString (s : List Char) (f : Fmt) : Option Version :=
  match Parse s f with
  | none => none
  | some (v, n, e) =>
    if e = none ∧ n = (s.length : Int) then some v else some ⟨0, 0, 0, 0⟩

/-- The decimal digit characters of `n`, most significant first, as produced
by `strconv.AppendInt` for a positive value. -/
def decDigits (n : Nat) : List Char :=
  (Nat.digits 10 n).reverse.map Nat.digitChar

/-- `formatInt`: writes `"0"` whenever `i <= 0`, else the decimal digits. -/
def formatInt (i : Int) : List Char :=
  if i ≤ 0 then ['0'] else decDigits i.toNat

/-- The separator string chosen by the `switch f` in `Version.Format`;
`none` models the `panic("invalid format")`. -/
def formatSep (f : Fmt) : Option (List Char) :=
  if f = Any ∨ f = Dot ∨ f = AnySpace ∨ f = DotSpace then some ['.']
  else if f = Comma then some [',']
  else if f = CommaSpace then some [',', ' ']
  else none

/-- `Version.Format`: the four components rendered by `formatInt` and joined
by the separator of `f`. -/
def Version.Format (v : Version) (f : Fmt) : Option (List Char) :=
  match formatSep f with
  | none => none
  | some sep =>
    some (formatInt v.Major ++ sep ++ formatInt v.Minor ++ sep ++
      formatInt v.Patch ++ sep ++ formatInt v.Maint)

/-- `Version.Less`, exactly as written in the source: each field is compared
in turn, returning `true` on the first field of `v` that is smaller, without
first checking that the earlier fields are equal. -/
def Version.Less (v u : Version) : Bool :=
  if v.Major < u.Major then true
  else if v.Minor < u.Minor then true
  else if v.Patch < u.Patch then true
  else if v.Maint < u.Maint then true
  else false

/-! ### Basic facts about whitespace trimming and digit runs -/

lemma length_dropWhile_le (p : Char → Bool) (l : List Char) :
    (l.dropWhile p).length ≤ l.length := by
  induction l with
  | nil => simp
  | cons c t ih =>
    rw [List.dropWhile_cons]
    split
    · exact le_trans ih (by simp)
    · simp

lemma trimWS_false (b : List Char) : trimWS false b = b := rfl

lemma trimWS_nil (ws : Bool) : trimWS ws [] = [] := by
  cases ws <;> rfl

lemma trimWS_notSpace (ws : Bool) (c : Char) (t : List Char) (hc : goIsSpace c = false) :
    trimWS ws (c :: t) = c :: t := by
  cases ws
  · rfl
  · simp [trimWS, List.dropWhile_cons, hc]

lemma trimWS_space_cons (t : List Char) : trimWS true (' ' :: t) = trimWS true t := by
  have h : goIsSpace ' ' = true := by decide
  simp [trimWS, List.dropWhile_cons, h]

lemma trimWS_length_le (ws : Bool) (b : List Char) : (trimWS ws b).length ≤ b.length := by
  cases ws
  · simp [trimWS]
  · simpa [trimWS] using length_dropWhile_le goIsSpace b

lemma digit_not_space (c : Char) (h : isDigitCh c = true) : goIsSpace c = false := by
  simp only [isDigitCh, Bool.and_eq_true, decide_eq_true_eq] at h
  simp only [goIsSpace, Bool.or_eq_false_iff, Bool.and_eq_false_iff,
    decide_eq_false_iff_not]
  omega

/-- `headIsNot p l`: `l` is empty or its first character fails `p`. -/
def headIsNot (p : Char → Bool) : List Char → Prop
  | [] => True
  | c :: _ => p c = false

lemma takeWhile_append_of (p : Char → Bool) (l1 l2 : List Char)
    (h1 : ∀ c ∈ l1, p c = true) (h2 : headIsNot p l2) :
    (l1 ++ l2).takeWhile p = l1 := by
  induction l1 with
  | nil =>
    simp only [List.nil_append]
    cases l2 with
    | nil => rfl
    | cons c t =>
      have hc : p c = false := h2
      simp [List.takeWhile_cons, hc]
  | cons c t ih =>
    have hc : p c = true := h1 c (List.mem_cons_self c t)
    simp only [List.cons_append, List.takeWhile_cons, hc, if_true]
    rw [ih (fun d hd => h1 d (List.mem_cons_of_mem c hd))]

/-! ### The value of a formatted digit run -/

lemma digitChar_toNat_sub (d : Nat) (h : d < 10) : (Nat.digitChar d).toNat - 48 = d := by
  interval_cases d <;> decide

lemma foldl_digitChar (L : List Nat) (h : ∀ d ∈ L, d < 10) (a : Nat) :
    (L.map Nat.digitChar).foldl (fun x c => 10 * x + (c.toNat - 48)) a
      = L.foldl (fun x d => 10 * x + d) a := by
  induction L generalizing a with
  | nil => rfl
  | cons d t ih =>
    simp only [List.map_cons, List.foldl_cons]
    rw [digitChar_toNat_sub d (h d (List.mem_cons_self d t))]
    exact ih (fun e he => h e (List.mem_cons_of_mem d he)) _

lemma foldl_rev_digits (L : List Nat) (a : Nat) :
    (L.reverse).foldl (fun x d => 10 * x + d) a = a * 10 ^ L.length + Nat.ofDigits 10 L := by
  induction L generalizing a with
  | nil => simp [Nat.ofDigits_nil]
  | cons d t ih =>
    rw [List.reverse_cons, List.foldl_append, ih]
    simp only [List.foldl_cons, List.foldl_nil, Nat.ofDigits_cons, List.length_cons,
      Nat.cast_id, pow_succ]
    ring

lemma digitsVal_decDigits (n : Nat) : digitsVal (decDigits n) = n := by
  have hlt : ∀ d ∈ (Nat.digits 10 n).reverse, d < 10 := fun d hd =>
    Nat.digits_lt_base (by norm_num) (List.mem_reverse.mp hd)
  unfold digitsVal decDigits
  rw [foldl_digitChar _ hlt 0]
  have := foldl_rev_digits (Nat.digits 10 n) 0
  rw [this, Nat.ofDigits_digits]
  simp

lemma digitChar_isDigit (d : Nat) (h : d < 10) : isDigitCh (Nat.digitChar d) = true := by
  interval_cases d <;> decide

lemma decDigits_all_digit (n : Nat) : ∀ c ∈ decDigits n, isDigitCh c = true := by
  intro c hc
  obtain ⟨d, hd, rfl⟩ := List.mem_map.mp hc
  exact digitChar_isDigit d (Nat.digits_lt_base (by norm_num) (List.mem_reverse.mp hd))

lemma formatInt_all_digit (x : Int) : ∀ c ∈ formatInt x, isDigitCh c = true := by
  unfold formatInt
  split
  · intro c hc
    simp only [List.mem_singleton] at hc
    subst hc
    decide
  · exact decDigits_all_digit _

lemma formatInt_ne_nil (x : Int) : formatInt x ≠ [] := by
  unfold formatInt
  split
  · simp
  · unfold decDigits
    simp only [ne_eq, List.map_eq_nil_iff, List.reverse_eq_nil_iff]
    apply Nat.digits_ne_nil_iff_ne_zero.mpr
    omega

lemma formatInt_head (x : Int) :
    ∃ c t, formatInt x = c :: t ∧ isDigitCh c = true := by
  rcases h : formatInt x with _ | ⟨c, t⟩
  · exact absurd h (formatInt_ne_nil x)
  · exact ⟨c, t, rfl, formatInt_all_digit x c (h ▸ List.mem_cons_self c t)⟩

lemma formatInt_nonpos (i : Int) (h : i ≤ 0) : formatInt i = ['0'] := by
  unfold formatInt
  rw [if_pos h]

lemma formatInt_no_minus (i : Int) : '-' ∉ formatInt i := by
  intro hmem
  have := formatInt_all_digit i '-' hmem
  simp [isDigitCh] at this

/-! ### `parseInt` on a formatted component -/

lemma formatInt_toNat (x : Int) (h0 : 0 ≤ x) : digitsVal (formatInt x) = x.toNat := by
  unfold formatInt
  split
  · have hx : x = 0 := le_antisymm (by assumption) h0
    subst hx
    decide
  · exact digitsVal_decDigits _

lemma parseInt_formatInt (x : Int) (h0 : 0 ≤ x) (h1 : x ≤ (intMax : Int))
    (rest : List Char) (hr : headIsNot isDigitCh rest) :
    parseInt (formatInt x ++ rest) = some (x, rest) := by
  have hds : (formatInt x ++ rest).takeWhile isDigitCh = formatInt x :=
    takeWhile_append_of _ _ _ (formatInt_all_digit x) hr
  have hval : digitsVal (formatInt x) = x.toNat := formatInt_toNat x h0
  have hle : x.toNat ≤ intMax := by omega
  unfold parseInt
  rw [hds, if_neg (formatInt_ne_nil x), hval, if_pos hle, List.drop_left]
  rw [Int.toNat_of_nonneg h0]

/-! ### `parseSep` at a boundary of a formatted string -/

lemma parseSep_fixed_one (c : Char) (ws : Bool) (r : List Char)
    (hc : goIsSpace c = false) (hr : trimWS ws r = r) :
    parseSep (some [c]) ws (c :: r) = (some [c], r, none) := by
  unfold parseSep
  rw [trimWS_notSpace ws c r hc]
  simp only [List.length_cons, List.length_nil, List.take_succ_cons, List.take_zero,
    List.drop_succ_cons, List.drop_zero, hr]
  rw [if_neg (by omega), if_pos trivial]

lemma parseSep_guess (ws : Bool) (c : Char) (r : List Char)
    (hc : c = '.' ∨ c = ',') (hr : trimWS ws r = r) :
    parseSep none ws (c :: r) = (some [c], r, none) := by
  have hcs : goIsSpace c = false := by rcases hc with rfl | rfl <;> decide
  unfold parseSep
  rw [trimWS_notSpace ws c r hcs]
  simp only [hr]
  rw [if_pos hc]

lemma parseSep_commaSpace (r : List Char) (hr : trimWS true r = r) :
    parseSep (some [',']) true (',' :: ' ' :: r) = (some [','], r, none) := by
  unfold parseSep
  rw [trimWS_notSpace true ',' (' ' :: r) (by decide)]
  simp only [List.length_cons, List.length_nil, List.take_succ_cons, List.take_zero,
    List.drop_succ_cons, List.drop_zero]
  rw [if_neg (by omega), if_pos trivial, trimWS_space_cons, hr]

/-! ### Running `parseCore` along a success path -/

lemma parseCore_run (sep0 : Option (List Char)) (ws : Bool) (b0 : List Char)
    (c0 : List Char) (h0 : trimWS ws b0 = c0) (hne : ¬c0 = [])
    (x1 : Int) (c1 : List Char) (h1 : parseInt c0 = some (x1, c1))
    (s1 : Option (List Char)) (c2 : List Char) (h2 : parseSep sep0 ws c1 = (s1, c2, none))
    (x2 : Int) (c3 : List Char) (h3 : parseInt c2 = some (x2, c3))
    (s2 : Option (List Char)) (c4 : List Char) (h4 : parseSep s1 ws c3 = (s2, c4, none))
    (x3 : Int) (c5 : List Char) (h5 : parseInt c4 = some (x3, c5))
    (s3 : Option (List Char)) (c6 : List Char) (h6 : parseSep s2 ws c5 = (s3, c6, none))
    (x4 : Int) (c7 : List Char) (h7 : parseInt c6 = some (x4, c7)) :
    parseCore sep0 ws b0 =
      (⟨x1, x2, x3, x4⟩, (b0.length : Int) - ((trimWS ws c7).length : Int), none) := by
  unfold parseCore
  rw [h0, if_neg hne, h1]
  simp only [h2, h3, h4, h5, h6, h7]

/-! ### Parsing back a formatted version -/

lemma format_parse_core (sep0 : Option (List Char)) (ws : Bool) (S : List Char)
    (sepRes : List Char)
    (hS : ∃ c0 t0, S = c0 :: t0 ∧ isDigitCh c0 = false)
    (hws : ∀ c t, isDigitCh c = true → trimWS ws (c :: t) = c :: t)
    (g1 : ∀ c t, isDigitCh c = true →
      parseSep sep0 ws (S ++ c :: t) = (some sepRes, c :: t, none))
    (g2 : ∀ c t, isDigitCh c = true →
      parseSep (some sepRes) ws (S ++ c :: t) = (some sepRes, c :: t, none))
    (x1 x2 x3 x4 : Int)
    (hx1 : 0 ≤ x1 ∧ x1 ≤ (intMax : Int)) (hx2 : 0 ≤ x2 ∧ x2 ≤ (intMax : Int))
    (hx3 : 0 ≤ x3 ∧ x3 ≤ (intMax : Int)) (hx4 : 0 ≤ x4 ∧ x4 ≤ (intMax : Int)) :
    parseCore sep0 ws
        (formatInt x1 ++ (S ++ (formatInt x2 ++ (S ++ (formatInt x3 ++ (S ++
          formatInt x4)))))) =
      (⟨x1, x2, x3, x4⟩,
        ((formatInt x1 ++ (S ++ (formatInt x2 ++ (S ++ (formatInt x3 ++ (S ++
          formatInt x4)))))).length : Int),
        none) := by
  obtain ⟨a1, t1, e1, d1⟩ := formatInt_head x1
  obtain ⟨a2, t2, e2, d2⟩ := formatInt_head x2
  obtain ⟨a3, t3, e3, d3⟩ := formatInt_head x3
  obtain ⟨a4, t4, e4, d4⟩ := formatInt_head x4
  have hSd : ∀ z : List Char, headIsNot isDigitCh (S ++ z) := by
    intro z
    obtain ⟨c0, t0, rfl, hc0⟩ := hS
    exact hc0
  have h0 : trimWS ws (formatInt x1 ++ (S ++ (formatInt x2 ++ (S ++ (formatInt x3 ++ (S ++
      formatInt x4)))))) = formatInt x1 ++ (S ++ (formatInt x2 ++ (S ++ (formatInt x3 ++
      (S ++ formatInt x4))))) := by
    rw [e1, List.cons_append]
    exact hws a1 _ d1
  have hne : ¬(formatInt x1 ++ (S ++ (formatInt x2 ++ (S ++ (formatInt x3 ++ (S ++
      formatInt x4)))))) = [] := by
    rw [e1]
    simp
  have h1 : parseInt (formatInt x1 ++ (S ++ (formatInt x2 ++ (S ++ (formatInt x3 ++ (S ++
      formatInt x4)))))) = some (x1, S ++ (formatInt x2 ++ (S ++ (formatInt x3 ++ (S ++
      formatInt x4))))) :=
    parseInt_formatInt x1 hx1.1 hx1.2 _ (hSd _)
  have h2 : parseSep sep0 ws (S ++ (formatInt x2 ++ (S ++ (formatInt x3 ++ (S ++
      formatInt x4)))))
      = (some sepRes, formatInt x2 ++ (S ++ (formatInt x3 ++ (S ++ formatInt x4))), none) := by
    rw [e2, List.cons_append]
    exact g1 a2 _ d2
  have h3 : parseInt (formatInt x2 ++ (S ++ (formatInt x3 ++ (S ++ formatInt x4))))
      = some (x2, S ++ (formatInt x3 ++ (S ++ formatInt x4))) :=
    parseInt_formatInt x2 hx2.1 hx2.2 _ (hSd _)
  have h4 : parseSep (some sepRes) ws (S ++ (formatInt x3 ++ (S ++ formatInt x4)))
      = (some sepRes, formatInt x3 ++ (S ++ formatInt x4), none) := by
    rw [e3, List.cons_append]
    exact g2 a3 _ d3
  have h5 : parseInt (formatInt x3 ++ (S ++ formatInt x4))
      = some (x3, S ++ formatInt x4) :=
    parseInt_formatInt x3 hx3.1 hx3.2 _ (hSd _)
  have h6 : parseSep (some sepRes) ws (S ++ formatInt x4)
      = (some sepRes, formatInt x4, none) := by
    rw [e4]
    exact g2 a4 t4 d4
  have h7 : parseInt (formatInt x4) = some (x4, []) := by
    have h := parseInt_formatInt x4 hx4.1 hx4.2 [] trivial
    rwa [List.append_nil] at h
  rw [parseCore_run sep0 ws _ _ h0 hne _ _ h1 _ _ h2 _ _ h3 _ _ h4 _ _ h5 _ _ h6 _ _ h7,
    trimWS_nil]
  simp

lemma roundtrip_for (f : Fmt) (sep0 : Option (List Char)) (ws : Bool)
    (S sepRes : List Char)
    (hcfg : parseCfg f = some (sep0, ws))
    (hfs : formatSep f = some S)
    (hS : ∃ c0 t0, S = c0 :: t0 ∧ isDigitCh c0 = false)
    (hws : ∀ c t, isDigitCh c = true → trimWS ws (c :: t) = c :: t)
    (g1 : ∀ c t, isDigitCh c = true →
      parseSep sep0 ws (S ++ c :: t) = (some sepRes, c :: t, none))
    (g2 : ∀ c t, isDigitCh c = true →
      parseSep (some sepRes) ws (S ++ c :: t) = (some sepRes, c :: t, none))
    (x1 x2 x3 x4 : Int)
    (hx1 : 0 ≤ x1 ∧ x1 ≤ (intMax : Int)) (hx2 : 0 ≤ x2 ∧ x2 ≤ (intMax : Int))
    (hx3 : 0 ≤ x3 ∧ x3 ≤ (intMax : Int)) (hx4 : 0 ≤ x4 ∧ x4 ≤ (intMax : Int)) :
    ∃ s, Version.Format ⟨x1, x2, x3, x4⟩ f = some s ∧
      ParseString s f = some ⟨x1, x2, x3, x4⟩ := by
  refine ⟨formatInt x1 ++ (S ++ (formatInt x2 ++ (S ++ (formatInt x3 ++ (S ++
    formatInt x4))))), ?_, ?_⟩
  · unfold Version.Format
    simp only [hfs]
    simp [List.append_assoc]
  · have hc := format_parse_core sep0 ws S sepRes hS hws g1 g2 x1 x2 x3 x4 hx1 hx2 hx3 hx4
    unfold ParseString Parse
    simp only [hcfg, hc]
    simp

/-- Claim C2: for every `Version` whose four components are all non-negative and
within the 64-bit platform integer range, and every valid convention tag,
strict parsing of the formatted text round-trips:
`ParseString (v.Format f) f = v`. -/
theorem c2_format_parseString_roundtrip (v : Version) (f : Fmt) (hf : validFmt f)
    (hMajor : 0 ≤ v.Major ∧ v.Major ≤ (intMax : Int))
    (hMinor : 0 ≤ v.Minor ∧ v.Minor ≤ (intMax : Int))
    (hPatch : 0 ≤ v.Patch ∧ v.Patch ≤ (intMax : Int))
    (hMaint : 0 ≤ v.Maint ∧ v.Maint ≤ (intMax : Int)) :
    ∃ s, v.Format f = some s ∧ ParseString s f = some v := by
  obtain ⟨x1, x2, x3, x4⟩ := v
  rcases hf with rfl | rfl | rfl | rfl | rfl | rfl
  · exact roundtrip_for Any none false ['.'] ['.'] rfl rfl ⟨'.', [], rfl, by decide⟩
      (fun c t _ => rfl)
      (fun c t hc => parseSep_guess false '.' (c :: t) (Or.inl rfl) rfl)
      (fun c t hc => parseSep_fixed_one '.' false (c :: t) (by decide) rfl)
      x1 x2 x3 x4 hMajor hMinor hPatch hMaint
  · exact roundtrip_for Dot (some ['.']) false ['.'] ['.'] rfl rfl ⟨'.', [], rfl, by decide⟩
      (fun c t _ => rfl)
      (fun c t hc => parseSep_fixed_one '.' false (c :: t) (by decide) rfl)
      (fun c t hc => parseSep_fixed_one '.' false (c :: t) (by decide) rfl)
      x1 x2 x3 x4 hMajor hMinor hPatch hMaint
  · exact roundtrip_for Comma (some [',']) false [','] [','] rfl rfl ⟨',', [], rfl, by decide⟩
      (fun c t _ => rfl)
      (fun c t hc => parseSep_fixed_one ',' false (c :: t) (by decide) rfl)
      (fun c t hc => parseSep_fixed_one ',' false (c :: t) (by decide) rfl)
      x1 x2 x3 x4 hMajor hMinor hPatch hMaint
  · exact roundtrip_for AnySpace none true ['.'] ['.'] rfl rfl ⟨'.', [], rfl, by decide⟩
      (fun c t hc => trimWS_notSpace true c t (digit_not_space c hc))
      (fun c t hc => parseSep_guess true '.' (c :: t) (Or.inl rfl)
        (trimWS_notSpace true c t (digit_not_space c hc)))
      (fun c t hc => parseSep_fixed_one '.' true (c :: t) (by decide)
        (trimWS_notSpace true c t (digit_not_space c hc)))
      x1 x2 x3 x4 hMajor hMinor hPatch hMaint
  · exact roundtrip_for DotSpace (some ['.']) true ['.'] ['.'] rfl rfl ⟨'.', [], rfl, by decide⟩
      (fun c t hc => trimWS_notSpace true c t (digit_not_space c hc))
      (fun c t hc => parseSep_fixed_one '.' true (c :: t) (by decide)
        (trimWS_notSpace true c t (digit_not_space c hc)))
      (fun c t hc => parseSep_fixed_one '.' true (c :: t) (by decide)
        (trimWS_notSpace true c t (digit_not_space c hc)))
      x1 x2 x3 x4 hMajor hMinor hPatch hMaint
  · exact roundtrip_for CommaSpace (some [',']) true [',', ' '] [','] rfl rfl
      ⟨',', [' '], rfl, by decide⟩
      (fun c t hc => trimWS_notSpace true c t (digit_not_space c hc))
      (fun c t hc => parseSep_commaSpace (c :: t)
        (trimWS_notSpace true c t (digit_not_space c hc)))
      (fun c t hc => parseSep_commaSpace (c :: t)
        (trimWS_notSpace true c t (digit_not_space c hc)))
      x1 x2 x3 x4 hMajor hMinor hPatch hMaint

/-- Witness for C2 at a concrete version and convention. -/
theorem c2_format_parseString_roundtrip_witness :
    validFmt CommaSpace ∧
    (0 ≤ (12 : Int) ∧ (12 : Int) ≤ (intMax : Int)) ∧
    (0 ≤ (0 : Int) ∧ (0 : Int) ≤ (intMax : Int)) ∧
    (0 ≤ (56 : Int) ∧ (56 : Int) ≤ (intMax : Int)) ∧
    (0 ≤ (9223372036854775807 : Int) ∧ (9223372036854775807 : Int) ≤ (intMax : Int)) ∧
    (∃ s, Version.Format ⟨12, 0, 56, 9223372036854775807⟩ CommaSpace = some s ∧
      ParseString s CommaSpace = some ⟨12, 0, 56, 9223372036854775807⟩) :=
  ⟨by decide, by decide, by decide, by decide, by decide,
    c2_format_parseString_roundtrip ⟨12, 0, 56, 9223372036854775807⟩ CommaSpace
      (by decide) (by decide) (by decide) (by decide) (by decide)⟩

/-! ### Bounds on the consumed count -/

lemma parseInt_le (b : List Char) (x : Int) (b' : List Char)
    (h : parseInt b = some (x, b')) : b'.length ≤ b.length := by
  unfold parseInt at h
  split_ifs at h
  injection h with h
  injection h with _ h
  subst h
  rw [List.length_drop]
  omega

lemma parseSep_le (sep : Option (List Char)) (ws : Bool) (b : List Char)
    (s' : Option (List Char)) (b' : List Char) (e : Option GoErr)
    (h : parseSep sep ws b = (s', b', e)) : b'.length ≤ b.length := by
  have t0 : (trimWS ws b).length ≤ b.length := trimWS_length_le ws b
  unfold parseSep at h
  split at h
  · rename_i heq
    injection h with _ h
    injection h with h _
    subst h
    simp
  · rename_i c rest heq
    have hcr : (c :: rest).length ≤ b.length := by rw [← heq]; exact t0
    split at h
    · split_ifs at h
      · injection h with _ h
        injection h with h _
        subst h
        calc (trimWS ws rest).length ≤ rest.length := trimWS_length_le ws rest
          _ ≤ (c :: rest).length := by simp
          _ ≤ b.length := hcr
      · injection h with _ h
        injection h with h _
        subst h
        exact hcr
    · split_ifs at h
      · injection h with _ h
        injection h with h _
        subst h
        exact hcr
      · injection h with _ h
        injection h with h _
        subst h
        calc (trimWS ws ((c :: rest).drop _)).length
            ≤ ((c :: rest).drop _).length := trimWS_length_le ws _
          _ ≤ (c :: rest).length := by rw [List.length_drop]; omega
          _ ≤ b.length := hcr
      · injection h with _ h
        injection h with h _
        subst h
        exact hcr

lemma parseCore_consumed (sep0 : Option (List Char)) (ws : Bool) (b0 : List Char) :
    0 ≤ (parseCore sep0 ws b0).2.1 ∧ (parseCore sep0 ws b0).2.1 ≤ (b0.length : Int) := by
  have t0 : (trimWS ws b0).length ≤ b0.length := trimWS_length_le ws b0
  unfold parseCore
  split
  · dsimp only
    omega
  · split
    · dsimp only
      omega
    · rename_i x1 b1 h1
      have l1 : b1.length ≤ (trimWS ws b0).length := parseInt_le _ _ _ h1
      split
      · rename_i b2 e h2
        have l2 : b2.length ≤ b1.length := parseSep_le _ _ _ _ _ _ h2
        dsimp only
        omega
      · rename_i s1 b2 h2
        have l2 : b2.length ≤ b1.length := parseSep_le _ _ _ _ _ _ h2
        split
        · dsimp only
          omega
        · rename_i x2 b3 h3
          have l3 : b3.length ≤ b2.length := parseInt_le _ _ _ h3
          split
          · rename_i b4 e h4
            have l4 : b4.length ≤ b3.length := parseSep_le _ _ _ _ _ _ h4
            dsimp only
            omega
          · rename_i s2 b4 h4
            have l4 : b4.length ≤ b3.length := parseSep_le _ _ _ _ _ _ h4
            split
            · dsimp only
              omega
            · rename_i x3 b5 h5
              have l5 : b5.length ≤ b4.length := parseInt_le _ _ _ h5
              split
              · rename_i b6 e h6
                have l6 : b6.length ≤ b5.length := parseSep_le _ _ _ _ _ _ h6
                dsimp only
                omega
              · rename_i s3 b6 h6
                have l6 : b6.length ≤ b5.length := parseSep_le _ _ _ _ _ _ h6
                split
                · dsimp only
                  omega
                · rename_i x4 b7 h7
                  have l7 : b7.length ≤ b6.length := parseInt_le _ _ _ h7
                  have l8 : (trimWS ws b7).length ≤ b7.length := trimWS_length_le ws b7
                  dsimp only
                  omega

/-- For each valid tag, `Parse` dispatches to `parseCore` with the separator
and whitespace flag of that tag. -/
lemma Parse_valid (b : List Char) (f : Fmt) (hf : validFmt f) :
    ∃ sep0 ws, parseCfg f = some (sep0, ws) ∧ Parse b f = some (parseCore sep0 ws b) := by
  rcases hf with rfl | rfl | rfl | rfl | rfl | rfl
  · exact ⟨none, false, rfl, rfl⟩
  · exact ⟨some ['.'], false, rfl, rfl⟩
  · exact ⟨some [','], false, rfl, rfl⟩
  · exact ⟨none, true, rfl, rfl⟩
  · exact ⟨some ['.'], true, rfl, rfl⟩
  · exact ⟨some [','], true, rfl, rfl⟩

/-! ### The claims -/

/-- Claim C1, refuted by the code: `Version.Less` is not the standard four-way
lexicographic order.  With `v = {2,0,0,0}` and `u = {1,5,0,0}` the code returns
true for both `v.Less u` and `u.Less v` — no strict order allows that, and
lexicographically `v > u`, so `v.Less u` would have to be false.  The source
compares each field in turn and returns true on the first smaller field
without checking that the earlier fields are equal. -/
theorem c1_less_not_lexicographic :
    Version.Less ⟨2, 0, 0, 0⟩ ⟨1, 5, 0, 0⟩ = true ∧
    Version.Less ⟨1, 5, 0, 0⟩ ⟨2, 0, 0, 0⟩ = true := by
  decide

/-- Claim C3, refuted by the code: under the guess convention `Any`, a guessed
comma separator is accepted with no requirement of a following space.
`"12,34,56,78"` parses successfully to `{12,34,56,78}` with 11 bytes consumed
and no error, where the claim (and the package's own test table) demands a
syntax error. -/
theorem c3_guess_comma_without_space :
    Parse (String.toList "12,34,56,78") Any = some (⟨12, 34, 56, 78⟩, 11, none) := by
  decide

/-- Claim C4, refuted by the code: under the `Comma` convention the separator
is the single byte `","`, so the input `"12, 34, 56, 78"` fails with a syntax
error after 3 bytes (the space after the first comma is not a digit), instead
of succeeding with 14 bytes consumed as the claim (and the package's own test
table) states. -/
theorem c4_comma_space_input_rejected :
    Parse (String.toList "12, 34, 56, 78") Comma
      = some (⟨12, 0, 0, 0⟩, 3, some GoErr.synErr) := by
  decide

/-- Claim C5: `ParseString s f` returns the decoded version exactly when
`Parse` reports no error and its consumed count equals the length of the
input; in every other case it returns the zero-value `Version` sentinel. -/
theorem c5_parseString_strict (s : List Char) (f : Fmt) (hf : validFmt f) :
    ∃ v n e, Parse s f = some (v, n, e) ∧
      ((e = none ∧ n = (s.length : Int)) → ParseString s f = some v) ∧
      (¬(e = none ∧ n = (s.length : Int)) → ParseString s f = some ⟨0, 0, 0, 0⟩) := by
  obtain ⟨sep0, ws, _, hp⟩ := Parse_valid s f hf
  rcases hcore : parseCore sep0 ws s with ⟨v, n, e⟩
  refine ⟨v, n, e, by rw [hp, hcore], ?_, ?_⟩
  · intro hok
    unfold ParseString
    simp only [hp, hcore]
    rw [if_pos hok]
  · intro hbad
    unfold ParseString
    simp only [hp, hcore]
    rw [if_neg hbad]

/-- Witness for C5 at the spec's trailing-garbage example. -/
theorem c5_parseString_strict_witness :
    validFmt Dot ∧
    (∃ v n e, Parse (String.toList "0.123.1.1234567trailingdata") Dot = some (v, n, e) ∧
      ((e = none ∧ n = ((String.toList "0.123.1.1234567trailingdata").length : Int)) →
        ParseString (String.toList "0.123.1.1234567trailingdata") Dot = some v) ∧
      (¬(e = none ∧ n = ((String.toList "0.123.1.1234567trailingdata").length : Int)) →
        ParseString (String.toList "0.123.1.1234567trailingdata") Dot
          = some ⟨0, 0, 0, 0⟩)) :=
  ⟨by decide, c5_parseString_strict (String.toList "0.123.1.1234567trailingdata") Dot
    (by decide)⟩

/-- Claim C6: for every `Version` (negative fields included) and valid tag,
`Format` cannot fail: it is the join of the four `formatInt` renderings by
exactly three copies of the convention's separator, with no leading or
trailing separator; `formatInt` renders every non-positive field as `"0"`
(never a minus sign) and every positive field as plain decimal digits. -/
theorem c6_format_total_and_clamped (v : Version) (f : Fmt) (hf : validFmt f) :
    ∃ sep s, formatSep f = some sep ∧ v.Format f = some s ∧
      s = formatInt v.Major ++ sep ++ formatInt v.Minor ++ sep ++
        formatInt v.Patch ++ sep ++ formatInt v.Maint ∧
      (∀ i : Int, i ≤ 0 → formatInt i = ['0']) ∧
      (∀ i : Int, 0 < i → formatInt i ≠ [] ∧ ∀ c ∈ formatInt i, isDigitCh c = true) ∧
      (∀ i : Int, '-' ∉ formatInt i) := by
  have hpos : ∀ i : Int, 0 < i → formatInt i ≠ [] ∧ ∀ c ∈ formatInt i, isDigitCh c = true :=
    fun i _ => ⟨formatInt_ne_nil i, formatInt_all_digit i⟩
  rcases hf with rfl | rfl | rfl | rfl | rfl | rfl <;>
    exact ⟨_, _, rfl, rfl, rfl, formatInt_nonpos, hpos, formatInt_no_minus⟩

/-- Witness for C6 at a version with a negative field. -/
theorem c6_format_total_and_clamped_witness :
    validFmt CommaSpace ∧
    (∃ sep s, formatSep CommaSpace = some sep ∧
      Version.Format ⟨1, -1, 0, 5⟩ CommaSpace = some s ∧
      s = formatInt 1 ++ sep ++ formatInt (-1) ++ sep ++
        formatInt 0 ++ sep ++ formatInt 5 ∧
      (∀ i : Int, i ≤ 0 → formatInt i = ['0']) ∧
      (∀ i : Int, 0 < i → formatInt i ≠ [] ∧ ∀ c ∈ formatInt i, isDigitCh c = true) ∧
      (∀ i : Int, '-' ∉ formatInt i)) :=
  ⟨by decide, c6_format_total_and_clamped ⟨1, -1, 0, 5⟩ CommaSpace (by decide)⟩

/-- Claim C7: on the mixed-separator input `"12.34,56.78"`, parsing under each
of `Any`, `Dot` and `Comma` fails with a syntax error no later than the second
separator boundary, with the consumed count equal to the number of bytes
before the boundary where the mismatch is detected: 5 under `Any` and `Dot`
(the `','` after `"12.34"` conflicts with the established `'.'`), and 2 under
`Comma` (the `'.'` after `"12"` conflicts with the requested `','`). -/
theorem c7_mixed_separator_fails :
    Parse (String.toList "12.34,56.78") Any
      = some (⟨12, 34, 0, 0⟩, 5, some GoErr.synErr) ∧
    Parse (String.toList "12.34,56.78") Dot
      = some (⟨12, 34, 0, 0⟩, 5, some GoErr.synErr) ∧
    Parse (String.toList "12.34,56.78") Comma
      = some (⟨12, 0, 0, 0⟩, 2, some GoErr.synErr) := by
  decide

/-- Claim C8: parsing `"0.123.-1.1234567"` under the guess convention fails
with the syntax error (a minus sign is never accepted as the start of a digit
run), returning the partial version `{0,123,0,0}` with exactly 6 bytes
consumed — up to and including the second `'.'`. -/
theorem c8_minus_sign_rejected :
    Parse (String.toList "0.123.-1.1234567") Any
      = some (⟨0, 123, 0, 0⟩, 6, some GoErr.synErr) := by
  decide

/-- Claim C9: for every input and valid tag, `Parse` does not panic and its
error component is exactly one of: no error, the syntax error (`ErrSyntax`),
or the unexpected-end-of-input error (`io.ErrUnexpectedEOF`); every outcome
carries the consumed-byte count. -/
theorem c9_error_taxonomy (b : List Char) (f : Fmt) (hf : validFmt f) :
    ∃ v n e, Parse b f = some (v, n, e) ∧
      (e = none ∨ e = some GoErr.synErr ∨ e = some GoErr.eofErr) := by
  obtain ⟨sep0, ws, _, hp⟩ := Parse_valid b f hf
  rcases hcore : parseCore sep0 ws b with ⟨v, n, e⟩
  refine ⟨v, n, e, by rw [hp, hcore], ?_⟩
  cases e with
  | none => exact Or.inl rfl
  | some g =>
    cases g with
    | synErr => exact Or.inr (Or.inl rfl)
    | eofErr => exact Or.inr (Or.inr rfl)

/-- Witness for C9 on a whitespace-only input under `Comma`. -/
theorem c9_error_taxonomy_witness :
    validFmt Comma ∧
    (∃ v n e, Parse (String.toList " ") Comma = some (v, n, e) ∧
      (e = none ∨ e = some GoErr.synErr ∨ e = some GoErr.eofErr)) :=
  ⟨by decide, c9_error_taxonomy (String.toList " ") Comma (by decide)⟩

/-- Claim C10: for every input and valid tag, the consumed count `n` of
`Parse` satisfies `0 ≤ n ≤ len(b)`, on success and on failure alike. -/
theorem c10_consumed_bounds (b : List Char) (f : Fmt) (hf : validFmt f) :
    ∃ v n e, Parse b f = some (v, n, e) ∧ 0 ≤ n ∧ n ≤ (b.length : Int) := by
  obtain ⟨sep0, ws, _, hp⟩ := Parse_valid b f hf
  have hb := parseCore_consumed sep0 ws b
  rcases hcore : parseCore sep0 ws b with ⟨v, n, e⟩
  rw [hcore] at hb
  exact ⟨v, n, e, by rw [hp, hcore], hb⟩

/-- Witness for C10 on an input that fails mid-way under `DotSpace`. -/
theorem c10_consumed_bounds_witness :
    validFmt DotSpace ∧
    (∃ v n e, Parse (String.toList "12.. ") DotSpace = some (v, n, e) ∧
      0 ≤ n ∧ n ≤ ((String.toList "12.. ").length : Int)) :=
  ⟨by decide, c10_consumed_bounds (String.toList "12.. ") DotSpace (by decide)⟩

end Rbxver
